import Mathlib

/-!
Shallow embedding of the two MicroPython scripts of this repository
(the keyboard variant `key.py` and the piano variant `piano.py`):
the zone tables, blob selection, rectangle-containment zone resolution,
the debounce gate, the key state machine and the serial command
emission are transcribed as pure Lean functions, with the per-frame
side effects (UART writes and the `last_pressed_key` assignment)
reified as an ordered event trace.
-/

/-- A zone rectangle `(x, y, width, height)` as stored in the `rect`
field of a keymap entry. -/
structure Rect where
  x : Int
  y : Int
  w : Int
  h : Int
  deriving DecidableEq

/-- One entry of a keymap table: `{'center': (..), 'rect': (..), 'key': ..}`. -/
structure KeyInfo where
  center : Int × Int
  rect : Rect
  key : String
  deriving DecidableEq

/-- The `keymap_data` table of `key.py`. -/
def keymap_data : List KeyInfo := [
  ⟨(179, 161), ⟨174, 152, 30, 30⟩, "J"⟩,
  ⟨(143, 150), ⟨138, 141, 30, 30⟩, "H"⟩,
  ⟨(227, 149), ⟨222, 140, 30, 30⟩, "L"⟩,
  ⟨(62, 120), ⟨57, 111, 30, 30⟩, "R"⟩,
  ⟨(120, 150), ⟨115, 141, 30, 30⟩, "G"⟩,
  ⟨(5, 185), ⟨0, 176, 30, 30⟩, "Z"⟩,
  ⟨(50, 151), ⟨45, 146, 30, 30⟩, "D"⟩,
  ⟨(160, 191), ⟨110, 206, 100, 30⟩, "SPACE"⟩,
  ⟨(62, 113), ⟨57, 104, 30, 30⟩, "-"⟩,
  ⟨(222, 99), ⟨217, 90, 10, 17⟩, "BACK"⟩]

/-- The `white_keys` table of `piano.py`. -/
def white_keys : List KeyInfo := [
  ⟨(50, 190), ⟨40, 150, 20, 80⟩, "C4"⟩,
  ⟨(70, 190), ⟨60, 150, 20, 80⟩, "D4"⟩,
  ⟨(90, 190), ⟨80, 150, 20, 80⟩, "E4"⟩,
  ⟨(110, 190), ⟨100, 150, 20, 80⟩, "F4"⟩,
  ⟨(130, 190), ⟨120, 150, 20, 80⟩, "G4"⟩,
  ⟨(150, 190), ⟨140, 150, 20, 80⟩, "A4"⟩,
  ⟨(170, 190), ⟨160, 150, 20, 80⟩, "B4"⟩,
  ⟨(190, 190), ⟨180, 150, 20, 80⟩, "C5"⟩,
  ⟨(210, 190), ⟨200, 150, 20, 80⟩, "D5"⟩,
  ⟨(230, 190), ⟨220, 150, 20, 80⟩, "E5"⟩]

/-- The `black_keys` table of `piano.py`. -/
def black_keys : List KeyInfo := [
  ⟨(40, 125), ⟨33, 100, 14, 50⟩, "CS4"⟩,
  ⟨(60, 125), ⟨53, 100, 14, 50⟩, "DS4"⟩,
  ⟨(100, 125), ⟨93, 100, 14, 50⟩, "FS4"⟩,
  ⟨(120, 125), ⟨113, 100, 14, 50⟩, "GS4"⟩,
  ⟨(140, 125), ⟨133, 100, 14, 50⟩, "AS4"⟩,
  ⟨(180, 125), ⟨173, 100, 14, 50⟩, "CS5"⟩,
  ⟨(200, 125), ⟨193, 100, 14, 50⟩, "DS5"⟩]

/-- `pianokey_map_data = black_keys + white_keys` (black keys first, so
that they take priority in the overlap regions). -/
def pianokey_map_data : List KeyInfo := black_keys ++ white_keys

/-- The containment test of both scripts (`key.py` lines 91-92,
`piano.py` lines 109-110): strict, exclusive-bound containment
`cx > x and cx < x + w and cy > y and cy < y + h`. -/
def containsPt (r : Rect) (cx cy : Int) : Bool :=
  decide (cx > r.x) && decide (cx < r.x + r.w) &&
  decide (cy > r.y) && decide (cy < r.y + r.h)

/-- The zone-resolution loop of `key.py` (lines 86-99): scan the table
in order, stop (`break`) at the first entry whose rectangle contains
the point; if that entry's key is not the `"NULL"` sentinel, report its
key and its center, otherwise report nothing. -/
def keyResolve : List KeyInfo → Int → Int → Option String × Option (Int × Int)
  | [], _, _ => (none, none)
  | ki :: rest, cx, cy =>
    if containsPt ki.rect cx cy then
      if ki.key ≠ "NULL" then (some ki.key, some ki.center) else (none, none)
    else keyResolve rest cx cy

/-- The zone-resolution loop of `piano.py` (lines 107-116): scan the
table in order, stop at the first entry whose rectangle contains the
point and report its key; there is no `"NULL"` check. -/
def pianoResolve : List KeyInfo → Int → Int → Option String
  | [], _, _ => none
  | ki :: rest, cx, cy =>
    if containsPt ki.rect cx cy then some ki.key
    else pianoResolve rest cx cy

/-- A per-frame blob detection: centroid `(cx, cy)` and pixel count. -/
structure Blob where
  cx : Int
  cy : Int
  pixels : Nat
  deriving DecidableEq

/-- `max(blobs, key=lambda b: b.pixels())` of both scripts: the first
blob of maximal pixel count, or `none` for an empty frame. -/
def selectBlob : List Blob → Option Blob
  | [] => none
  | b :: bs => some (bs.foldl (fun acc x => if x.pixels > acc.pixels then x else acc) b)

/-- An outbound serial command: key press or key release. -/
inductive Cmd where
  | press (k : String)
  | release (k : String)
  deriving DecidableEq

/-- Serialization of a command as written to the UART:
`"D_{key}\n"` for a press, `"U_{key}\n"` for a release. -/
def cmdStr : Cmd → String
  | .press k => "D_" ++ k ++ "\n"
  | .release k => "U_" ++ k ++ "\n"

/-- An observable per-frame effect, in the order the script performs
it: a `uart_to_mcu.write` of a command, or the
`last_pressed_key = current_key_found` state commit. -/
inductive FrameEv where
  | uartWrite (c : Cmd)
  | setActiveKey (k : Option String)
  deriving DecidableEq

/-- The release write guarded by `if last_pressed_key:`. -/
def relEvs : Option String → List FrameEv
  | some k => [FrameEv.uartWrite (.release k)]
  | none => []

/-- The press write guarded by `if current_key_found:`. -/
def pressEvs : Option String → List FrameEv
  | some k => [FrameEv.uartWrite (.press k)]
  | none => []

/-- The commands written to the UART during a trace, in order. -/
def writes (tr : List FrameEv) : List Cmd :=
  tr.filterMap fun e =>
    match e with
    | .uartWrite c => some c
    | _ => none

/-- The mutable state of `key.py` that the claims are about:
`last_pressed_key`, `last_key_time` and `last_center_coords`. -/
structure KeyState where
  last_pressed_key : Option String
  last_key_time : Int
  last_center_coords : Option (Int × Int)
  deriving DecidableEq

/-- `DEBOUNCE_TIME = 200` (ms) in `key.py`. -/
def DEBOUNCE_TIME : Int := 200

/-- Blob selection followed by zone resolution for one frame of
`key.py`: the pair `(current_key_found, current_center_coords)`. -/
def keyFrameResolved (blobs : List Blob) : Option String × Option (Int × Int) :=
  match selectBlob blobs with
  | none => (none, none)
  | some b => keyResolve keymap_data b.cx b.cy

/-- The candidate key of a frame in `key.py`, before the debounce gate. -/
def keyCandidate (blobs : List Blob) : Option String :=
  (keyFrameResolved blobs).1

/-- The resolved zone center of a frame in `key.py`. -/
def frameCenter (blobs : List Blob) : Option (Int × Int) :=
  (keyFrameResolved blobs).2

/-- The `last_center_coords` update of `key.py` (lines 101-105):
`if blobs and current_center_coords: last_center_coords = current_center_coords
elif not blobs: last_center_coords = None`. -/
def updateCoords (blobs : List Blob) (cc : Option (Int × Int)) (s : KeyState) : KeyState :=
  if blobs ≠ [] ∧ cc.isSome then { s with last_center_coords := cc }
  else if blobs = [] then { s with last_center_coords := none }
  else s

/-- One frame of the `key.py` main loop (lines 62-135, omitting the
drawing, LED and console observers): blob selection, zone resolution,
the coordinate update, then the debounced key state machine
(lines 107-135), returning the new state and the ordered trace of UART
writes and the state commit. -/
def keyStep (now : Int) (blobs : List Blob) (s : KeyState) : KeyState × List FrameEv :=
  let current_key_found := keyCandidate blobs
  let current_center_coords := frameCenter blobs
  let s := updateCoords blobs current_center_coords s
  let current_time := now
  if current_key_found ≠ s.last_pressed_key ∨
      (current_key_found.isSome ∧ s.last_pressed_key.isSome) then
    let current_key_found :=
      if current_key_found.isSome ∧
          current_time - s.last_key_time < DEBOUNCE_TIME then none
      else current_key_found
    if current_key_found ≠ s.last_pressed_key then
      ({ s with last_pressed_key := current_key_found,
                last_key_time := current_time },
       relEvs s.last_pressed_key ++ pressEvs current_key_found ++
         [FrameEv.setActiveKey current_key_found])
    else (s, [])
  else (s, [])

/-- The mutable state of `piano.py`: only `last_pressed_key`. -/
structure PianoState where
  last_pressed_key : Option String
  deriving DecidableEq

/-- The candidate key of a frame in `piano.py`. -/
def pianoCandidate (blobs : List Blob) : Option String :=
  match selectBlob blobs with
  | none => none
  | some b => pianoResolve pianokey_map_data b.cx b.cy

/-- One frame of the `piano.py` main loop (lines 89-134, omitting the
drawing, LED and console observers): blob selection, zone resolution,
then the undebounced key state machine (lines 118-134). -/
def pianoStep (blobs : List Blob) (s : PianoState) : PianoState × List FrameEv :=
  let current_key_found := pianoCandidate blobs
  if current_key_found ≠ s.last_pressed_key then
    (⟨current_key_found⟩,
     relEvs s.last_pressed_key ++ pressEvs current_key_found ++
       [FrameEv.setActiveKey current_key_found])
  else (s, [])

/-- Modelled from the spec: the frame candidate of the generic
pipeline, blob selection followed by zone resolution over the zone
table parameter. -/
def genCand (table : List KeyInfo) (blobs : List Blob) : Option String :=
  (match selectBlob blobs with
   | none => (none, none)
   | some b => keyResolve table b.cx b.cy).1

/-- Modelled from the spec: the resolved zone anchor of the generic
pipeline. -/
def genCenter (table : List KeyInfo) (blobs : List Blob) : Option (Int × Int) :=
  (match selectBlob blobs with
   | none => (none, none)
   | some b => keyResolve table b.cx b.cy).2

/-- Modelled from the spec: the single generic per-frame pipeline of
which, per the spec, the two scripts are instances "parameterized only
by the Zone configuration and debounce/report constants". It is the
`key.py` pipeline with the zone table and the debounce interval as
parameters. -/
def specGenericStep (table : List KeyInfo) (debounce : Int)
    (now : Int) (blobs : List Blob) (s : KeyState) : KeyState × List FrameEv :=
  let current_key_found := genCand table blobs
  let current_center_coords := genCenter table blobs
  let s := updateCoords blobs current_center_coords s
  let current_time := now
  if current_key_found ≠ s.last_pressed_key ∨
      (current_key_found.isSome ∧ s.last_pressed_key.isSome) then
    let current_key_found :=
      if current_key_found.isSome ∧
          current_time - s.last_key_time < debounce then none
      else current_key_found
    if current_key_found ≠ s.last_pressed_key then
      ({ s with last_pressed_key := current_key_found,
                last_key_time := current_time },
       relEvs s.last_pressed_key ++ pressEvs current_key_found ++
         [FrameEv.setActiveKey current_key_found])
    else (s, [])
  else (s, [])

/-- A run of `key.py` over a list of frames `(now, blobs)`. -/
def keyRun : List (Int × List Blob) → KeyState → KeyState × List FrameEv
  | [], s => (s, [])
  | (now, blobs) :: rest, s =>
    let r := keyStep now blobs s
    let r' := keyRun rest r.1
    (r'.1, r.2 ++ r'.2)

/-- A run of `piano.py` over a list of frames. -/
def pianoRun : List (List Blob) → PianoState → PianoState × List FrameEv
  | [], s => (s, [])
  | blobs :: rest, s =>
    let r := pianoStep blobs s
    let r' := pianoRun rest r.1
    (r'.1, r.2 ++ r'.2)

/-- A run of the spec's generic pipeline over a list of frames. -/
def specGenericRun (table : List KeyInfo) (debounce : Int) :
    List (Int × List Blob) → KeyState → KeyState × List FrameEv
  | [], s => (s, [])
  | (now, blobs) :: rest, s =>
    let r := specGenericStep table debounce now blobs s
    let r' := specGenericRun table debounce rest r.1
    (r'.1, r.2 ++ r'.2)

/-- Frame timestamps are nondecreasing and start no earlier than `t`
(the monotone time source of the spec). -/
def timesOk : Int → List (Int × List Blob) → Prop
  | _, [] => True
  | t, (now, _) :: rest => t ≤ now ∧ timesOk now rest

/-! ### Helper lemmas -/

/-- The gate of `key.py` line 111-112 applied to the frame candidate. -/
def gatedCand (now : Int) (blobs : List Blob) (s : KeyState) : Option String :=
  if (keyCandidate blobs).isSome ∧ now - s.last_key_time < DEBOUNCE_TIME then none
  else keyCandidate blobs

lemma updateCoords_pressed (blobs : List Blob) (cc : Option (Int × Int)) (s : KeyState) :
    (updateCoords blobs cc s).last_pressed_key = s.last_pressed_key := by
  unfold updateCoords
  split
  · rfl
  · split <;> rfl

lemma updateCoords_time (blobs : List Blob) (cc : Option (Int × Int)) (s : KeyState) :
    (updateCoords blobs cc s).last_key_time = s.last_key_time := by
  unfold updateCoords
  split
  · rfl
  · split <;> rfl

lemma keyStep_eq (now : Int) (blobs : List Blob) (s : KeyState) :
    keyStep now blobs s =
      if gatedCand now blobs s ≠ s.last_pressed_key then
        ({ updateCoords blobs (frameCenter blobs) s with
             last_pressed_key := gatedCand now blobs s, last_key_time := now },
         relEvs s.last_pressed_key ++ pressEvs (gatedCand now blobs s) ++
           [FrameEv.setActiveKey (gatedCand now blobs s)])
      else (updateCoords blobs (frameCenter blobs) s, []) := by
  unfold keyStep gatedCand
  simp only [updateCoords_pressed, updateCoords_time]
  by_cases hout : keyCandidate blobs ≠ s.last_pressed_key ∨
      ((keyCandidate blobs).isSome ∧ s.last_pressed_key.isSome)
  · simp only [hout, if_pos]
  · have hcp : keyCandidate blobs = s.last_pressed_key := by
      by_contra h
      exact hout (Or.inl h)
    have hnone : keyCandidate blobs = none := by
      cases hc : keyCandidate blobs with
      | none => rfl
      | some k =>
        exfalso
        apply hout
        refine Or.inr ⟨by simp [hc], ?_⟩
        rw [← hcp, hc]
        rfl
    rw [if_neg hout]
    have hg : gatedCand now blobs s = s.last_pressed_key := by
      unfold gatedCand
      rw [hnone] at hcp ⊢
      simp [← hcp]
    rw [if_neg (by simp [gatedCand, hnone, ← hcp])]

lemma containsPt_iff (r : Rect) (cx cy : Int) :
    containsPt r cx cy = true ↔
      (r.x < cx ∧ cx < r.x + r.w ∧ r.y < cy ∧ cy < r.y + r.h) := by
  simp [containsPt, and_assoc]

lemma keyResolve_sound (table : List KeyInfo) (cx cy : Int) (k : String)
    (h : (keyResolve table cx cy).1 = some k) :
    ∃ zi ∈ table, zi.key = k ∧ containsPt zi.rect cx cy = true := by
  induction table with
  | nil => simp [keyResolve] at h
  | cons ki rest ih =>
    by_cases hc : containsPt ki.rect cx cy
    · by_cases hk : ki.key ≠ "NULL"
      · simp [keyResolve, hc, hk] at h
        exact ⟨ki, List.mem_cons_self _ _, h, hc⟩
      · simp [keyResolve, hc, hk] at h
    · simp [keyResolve, hc] at h
      obtain ⟨zi, hmem, hkey, hcont⟩ := ih h
      exact ⟨zi, List.mem_cons_of_mem _ hmem, hkey, hcont⟩

lemma keyResolve_skip (pre : List KeyInfo) (tail : List KeyInfo) (cx cy : Int)
    (hpre : ∀ z' ∈ pre, containsPt z'.rect cx cy = false) :
    keyResolve (pre ++ tail) cx cy = keyResolve tail cx cy := by
  induction pre with
  | nil => rfl
  | cons p pre' ih =>
    have hp : containsPt p.rect cx cy = false := hpre p (List.mem_cons_self _ _)
    simp only [List.cons_append, keyResolve, hp, Bool.false_eq_true, if_false]
    exact ih fun z' hz' => hpre z' (List.mem_cons_of_mem _ hz')

lemma keyResolve_first (pre post : List KeyInfo) (z : KeyInfo) (cx cy : Int)
    (hpre : ∀ z' ∈ pre, containsPt z'.rect cx cy = false)
    (hz : containsPt z.rect cx cy = true) (hk : z.key ≠ "NULL") :
    keyResolve (pre ++ z :: post) cx cy = (some z.key, some z.center) := by
  rw [keyResolve_skip pre _ cx cy hpre]
  simp [keyResolve, hz, hk]

lemma keyResolve_first_null (pre post : List KeyInfo) (z : KeyInfo) (cx cy : Int)
    (hpre : ∀ z' ∈ pre, containsPt z'.rect cx cy = false)
    (hz : containsPt z.rect cx cy = true) (hk : z.key = "NULL") :
    keyResolve (pre ++ z :: post) cx cy = (none, none) := by
  rw [keyResolve_skip pre _ cx cy hpre]
  simp [keyResolve, hz, hk]

lemma keyResolve_nomatch (table : List KeyInfo) (cx cy : Int)
    (h : ∀ z' ∈ table, containsPt z'.rect cx cy = false) :
    keyResolve table cx cy = (none, none) := by
  have := keyResolve_skip table [] cx cy h
  simpa [keyResolve] using this

lemma keyResolve_break (pre post : List KeyInfo) (z : KeyInfo) (cx cy : Int)
    (hz : containsPt z.rect cx cy = true) :
    keyResolve (pre ++ z :: post) cx cy = keyResolve (pre ++ [z]) cx cy := by
  induction pre with
  | nil => simp [keyResolve, hz]
  | cons p pre' ih =>
    by_cases hp : containsPt p.rect cx cy
    · simp [keyResolve, hp]
    · simp only [List.cons_append, keyResolve, hp, Bool.false_eq_true, if_false]
      exact ih

lemma pianoResolve_skip (pre : List KeyInfo) (tail : List KeyInfo) (cx cy : Int)
    (hpre : ∀ z' ∈ pre, containsPt z'.rect cx cy = false) :
    pianoResolve (pre ++ tail) cx cy = pianoResolve tail cx cy := by
  induction pre with
  | nil => rfl
  | cons p pre' ih =>
    have hp : containsPt p.rect cx cy = false := hpre p (List.mem_cons_self _ _)
    simp only [List.cons_append, pianoResolve, hp, Bool.false_eq_true, if_false]
    exact ih fun z' hz' => hpre z' (List.mem_cons_of_mem _ hz')

lemma pianoResolve_break (pre post : List KeyInfo) (z : KeyInfo) (cx cy : Int)
    (hz : containsPt z.rect cx cy = true) :
    pianoResolve (pre ++ z :: post) cx cy = pianoResolve (pre ++ [z]) cx cy := by
  induction pre with
  | nil => simp [pianoResolve, hz]
  | cons p pre' ih =>
    by_cases hp : containsPt p.rect cx cy
    · simp [pianoResolve, hp]
    · simp only [List.cons_append, pianoResolve, hp, Bool.false_eq_true, if_false]
      exact ih

lemma pianoResolve_first (pre post : List KeyInfo) (z : KeyInfo) (cx cy : Int)
    (hpre : ∀ z' ∈ pre, containsPt z'.rect cx cy = false)
    (hz : containsPt z.rect cx cy = true) :
    pianoResolve (pre ++ z :: post) cx cy = some z.key := by
  rw [pianoResolve_skip pre _ cx cy hpre]
  simp [pianoResolve, hz]

/-! ### C5: strict exclusive-bound containment round-trip (corrected) -/

/-- C5 counterexample: the point `(62, 120)` lies strictly inside the
rectangle of the `"-"` zone of `keymap_data`, yet the resolver returns
the key `"R"` of the earlier overlapping zone, so a centroid strictly
inside a zone's rectangle does not always resolve to that zone's key. -/
theorem containment_roundtrip_cex :
    (⟨(62, 113), ⟨57, 104, 30, 30⟩, "-"⟩ : KeyInfo) ∈ keymap_data ∧
    containsPt ⟨57, 104, 30, 30⟩ 62 120 = true ∧
    (keyResolve keymap_data 62 120).1 = some "R" ∧
    (some "R" : Option String) ≠ some "-" := by
  refine ⟨by decide, by decide, by decide, by decide⟩

/-- C5 (amended): a zone matches a point exactly under the strict
exclusive bounds `x < cx < x + w` and `y < cy < y + h`; a point on a
rectangle edge never matches, and the resolver only ever answers with
the key of a table entry whose rectangle strictly contains the point;
a centroid strictly inside a non-sentinel zone's rectangle resolves to
that zone's key provided no earlier-listed zone also contains it. -/
theorem containment_roundtrip_amended (r : Rect) (cx cy : Int)
    (table pre post : List KeyInfo) (z : KeyInfo) (k : String) :
    (containsPt r cx cy = true ↔
      (r.x < cx ∧ cx < r.x + r.w ∧ r.y < cy ∧ cy < r.y + r.h)) ∧
    ((cx = r.x ∨ cx = r.x + r.w ∨ cy = r.y ∨ cy = r.y + r.h) →
      containsPt r cx cy = false) ∧
    ((keyResolve table cx cy).1 = some k →
      ∃ zi ∈ table, zi.key = k ∧ containsPt zi.rect cx cy = true) ∧
    ((∀ z' ∈ pre, containsPt z'.rect cx cy = false) →
      containsPt z.rect cx cy = true → z.key ≠ "NULL" →
      keyResolve (pre ++ z :: post) cx cy = (some z.key, some z.center)) := by
  refine ⟨containsPt_iff r cx cy, ?_,
    fun h => keyResolve_sound table cx cy k h,
    fun h1 h2 h3 => keyResolve_first pre post z cx cy h1 h2 h3⟩
  intro h
  rw [Bool.eq_false_iff]
  intro htrue
  rw [containsPt_iff] at htrue
  rcases h with h | h | h | h <;> omega

/-- Witness for C5 (amended) at the `"J"` zone of `keymap_data`: the
point `(174, 160)` on its left edge does not match, the interior point
`(180, 160)` resolves to `"J"`, and with the `"J"` zone first the
resolver reports its key and center. -/
theorem containment_roundtrip_amended_wit :
    containsPt ⟨174, 152, 30, 30⟩ 174 160 = false ∧
    (∃ zi ∈ keymap_data, zi.key = "J" ∧ containsPt zi.rect 180 160 = true) ∧
    keyResolve ([] ++ (⟨(179, 161), ⟨174, 152, 30, 30⟩, "J"⟩ : KeyInfo) :: []) 180 160
      = (some "J", some (179, 161)) := by
  have h1 := containment_roundtrip_amended ⟨174, 152, 30, 30⟩ 174 160
    keymap_data [] [] ⟨(179, 161), ⟨174, 152, 30, 30⟩, "J"⟩ "J"
  have h2 := containment_roundtrip_amended ⟨174, 152, 30, 30⟩ 180 160
    keymap_data [] [] ⟨(179, 161), ⟨174, 152, 30, 30⟩, "J"⟩ "J"
  exact ⟨h1.2.1 (Or.inl rfl), h2.2.2.1 (by decide),
    h2.2.2.2 (by simp) (by decide) (by decide)⟩

/-! ### C6: overlap priority -/

/-- C6: for a point strictly contained in an earlier zone `z` and in a
later zone `z2`, the resolution of both variants is the same as if
everything after `z` were absent (later entries never override), and
when `z` is the first containing zone its key is the one selected,
regardless of the rectangles' sizes. -/
theorem overlap_priority (pre post : List KeyInfo) (z z2 : KeyInfo) (cx cy : Int) :
    containsPt z.rect cx cy = true → z2 ∈ post → containsPt z2.rect cx cy = true →
    (keyResolve (pre ++ z :: post) cx cy = keyResolve (pre ++ [z]) cx cy ∧
     pianoResolve (pre ++ z :: post) cx cy = pianoResolve (pre ++ [z]) cx cy) ∧
    ((∀ z' ∈ pre, containsPt z'.rect cx cy = false) →
      pianoResolve (pre ++ z :: post) cx cy = some z.key ∧
      (z.key ≠ "NULL" → (keyResolve (pre ++ z :: post) cx cy).1 = some z.key)) := by
  intro hz _hmem _hz2
  refine ⟨⟨keyResolve_break pre post z cx cy hz, pianoResolve_break pre post z cx cy hz⟩,
    fun hpre => ⟨pianoResolve_first pre post z cx cy hpre hz, fun hk => ?_⟩⟩
  rw [keyResolve_first pre post z cx cy hpre hz hk]

/-- Witness for C6 at the overlapping `"R"` and `"-"` zones of
`keymap_data` and the point `(62, 120)` contained in both: the earlier
`"R"` zone wins. -/
theorem overlap_priority_wit :
    (keyResolve ([] ++ (⟨(62, 120), ⟨57, 111, 30, 30⟩, "R"⟩ : KeyInfo) ::
        [⟨(62, 113), ⟨57, 104, 30, 30⟩, "-"⟩]) 62 120 =
      keyResolve ([] ++ [⟨(62, 120), ⟨57, 111, 30, 30⟩, "R"⟩]) 62 120) ∧
    (pianoResolve ([] ++ (⟨(62, 120), ⟨57, 111, 30, 30⟩, "R"⟩ : KeyInfo) ::
        [⟨(62, 113), ⟨57, 104, 30, 30⟩, "-"⟩]) 62 120 =
      pianoResolve ([] ++ [⟨(62, 120), ⟨57, 111, 30, 30⟩, "R"⟩]) 62 120) ∧
    pianoResolve ([] ++ (⟨(62, 120), ⟨57, 111, 30, 30⟩, "R"⟩ : KeyInfo) ::
        [⟨(62, 113), ⟨57, 104, 30, 30⟩, "-"⟩]) 62 120 = some "R" ∧
    (keyResolve ([] ++ (⟨(62, 120), ⟨57, 111, 30, 30⟩, "R"⟩ : KeyInfo) ::
        [⟨(62, 113), ⟨57, 104, 30, 30⟩, "-"⟩]) 62 120).1 = some "R" := by
  have h := overlap_priority [] [⟨(62, 113), ⟨57, 104, 30, 30⟩, "-"⟩]
    ⟨(62, 120), ⟨57, 111, 30, 30⟩, "R"⟩ ⟨(62, 113), ⟨57, 104, 30, 30⟩, "-"⟩
    62 120 (by decide) (by decide) (by decide)
  exact ⟨h.1.1, h.1.2, (h.2 (by simp)).1, (h.2 (by simp)).2 (by decide)⟩

/-! ### C7: null-sentinel equivalence -/

/-- C7: a point whose first containing zone carries the `"NULL"`
sentinel resolves to exactly the same `(none, none)` result as a point
matching no zone at all; neither case is an error (the resolver is a
total function). -/
theorem null_sentinel_equiv (cx cy : Int) (table pre post : List KeyInfo) (z : KeyInfo) :
    ((∀ z' ∈ table, containsPt z'.rect cx cy = false) →
      keyResolve table cx cy = (none, none)) ∧
    ((∀ z' ∈ pre, containsPt z'.rect cx cy = false) →
      containsPt z.rect cx cy = true → z.key = "NULL" →
      keyResolve (pre ++ z :: post) cx cy = (none, none)) := by
  exact ⟨fun h => keyResolve_nomatch table cx cy h,
    fun h1 h2 h3 => keyResolve_first_null pre post z cx cy h1 h2 h3⟩

/-- Witness for C7 at the point `(5, 5)`: no zone of `keymap_data`
contains it, and a table starting with a `"NULL"` zone containing it
gives the identical `(none, none)` result. -/
theorem null_sentinel_equiv_wit :
    keyResolve keymap_data 5 5 = (none, none) ∧
    keyResolve ([] ++ (⟨(5, 5), ⟨0, 0, 10, 10⟩, "NULL"⟩ : KeyInfo) ::
        [⟨(179, 161), ⟨174, 152, 30, 30⟩, "J"⟩]) 5 5 = (none, none) := by
  have h := null_sentinel_equiv 5 5 keymap_data []
    [⟨(179, 161), ⟨174, 152, 30, 30⟩, "J"⟩] ⟨(5, 5), ⟨0, 0, 10, 10⟩, "NULL"⟩
  exact ⟨h.1 (by decide), h.2 (by simp) (by decide) (by decide)⟩

/-! ### State-machine helper lemmas -/

/-- Release or press command on a key, as a command-level predicate. -/
def isPressCmd : Cmd → Bool
  | .press _ => true
  | .release _ => false

def isReleaseCmd : Cmd → Bool
  | .release _ => true
  | .press _ => false

lemma writes_emit (p c : Option String) (c' : Option String) :
    writes (relEvs p ++ pressEvs c ++ [FrameEv.setActiveKey c']) =
      (match p with | some K => [Cmd.release K] | none => []) ++
      (match c with | some k => [Cmd.press k] | none => []) := by
  cases p <;> cases c <;> rfl

lemma keyStep_writes (now : Int) (blobs : List Blob) (s : KeyState) :
    writes (keyStep now blobs s).2 =
      if gatedCand now blobs s ≠ s.last_pressed_key then
        (match s.last_pressed_key with | some K => [Cmd.release K] | none => []) ++
        (match gatedCand now blobs s with | some k => [Cmd.press k] | none => [])
      else [] := by
  rw [keyStep_eq]
  by_cases h : gatedCand now blobs s ≠ s.last_pressed_key
  · rw [if_pos h, if_pos h]
    exact writes_emit _ _ _
  · rw [if_neg h, if_neg h]
    rfl

lemma pianoStep_writes (blobs : List Blob) (s : PianoState) :
    writes (pianoStep blobs s).2 =
      if pianoCandidate blobs ≠ s.last_pressed_key then
        (match s.last_pressed_key with | some K => [Cmd.release K] | none => []) ++
        (match pianoCandidate blobs with | some k => [Cmd.press k] | none => [])
      else [] := by
  unfold pianoStep
  by_cases h : pianoCandidate blobs ≠ s.last_pressed_key
  · rw [if_pos h, if_pos h]
    exact writes_emit _ _ _
  · rw [if_neg h, if_neg h]
    rfl

lemma gatedCand_of_lt (now : Int) (blobs : List Blob) (s : KeyState)
    (h : now - s.last_key_time < DEBOUNCE_TIME) :
    gatedCand now blobs s = none := by
  unfold gatedCand
  cases hc : keyCandidate blobs with
  | none => simp [hc]
  | some k => simp [hc, h]

lemma gatedCand_of_ge (now : Int) (blobs : List Blob) (s : KeyState)
    (h : DEBOUNCE_TIME ≤ now - s.last_key_time) :
    gatedCand now blobs s = keyCandidate blobs := by
  unfold gatedCand
  rw [if_neg]
  rintro ⟨-, hlt⟩
  omega

lemma gatedCand_of_none (now : Int) (blobs : List Blob) (s : KeyState)
    (h : keyCandidate blobs = none) :
    gatedCand now blobs s = none := by
  unfold gatedCand
  simp [h]

/-! ### C2: debounce asymmetry -/

/-- C2: when the frame's candidate key is non-`None` and the frame falls
within `DEBOUNCE_TIME` of the last transition, no press command is
written in that frame; in any frame, a press is only ever written at
least `DEBOUNCE_TIME` after the last transition; and a release (a
`None` candidate while a key is held) is never suppressed by the gate,
whatever the timing. -/
theorem debounce_asymmetry (now : Int) (blobs : List Blob) (s : KeyState) (K k : String) :
    ((keyCandidate blobs).isSome → now - s.last_key_time < DEBOUNCE_TIME →
      Cmd.press k ∉ writes (keyStep now blobs s).2) ∧
    (Cmd.press k ∈ writes (keyStep now blobs s).2 →
      DEBOUNCE_TIME ≤ now - s.last_key_time) ∧
    (keyCandidate blobs = none → s.last_pressed_key = some K →
      writes (keyStep now blobs s).2 = [Cmd.release K]) := by
  refine ⟨?_, ?_, ?_⟩
  · intro _ hlt
    rw [keyStep_writes]
    rw [gatedCand_of_lt now blobs s hlt]
    by_cases h : (none : Option String) ≠ s.last_pressed_key
    · rw [if_pos h]
      cases s.last_pressed_key <;> simp
    · rw [if_neg h]
      simp
  · intro hmem
    by_cases hlt : now - s.last_key_time < DEBOUNCE_TIME
    · exfalso
      rw [keyStep_writes, gatedCand_of_lt now blobs s hlt] at hmem
      by_cases h : (none : Option String) ≠ s.last_pressed_key
      · rw [if_pos h] at hmem
        cases hp : s.last_pressed_key <;> rw [hp] at hmem <;> simp at hmem
      · rw [if_neg h] at hmem
        simp at hmem
    · omega
  · intro hc hp
    rw [keyStep_writes, gatedCand_of_none now blobs s hc, hp]
    rw [if_pos (by simp)]
    simp

/-- Witness for C2: with key `"J"` held since time 1000 and the same
blob still present at time 1030, no press is written; and with no blob
at all at time 1030, the release of `"J"` goes through immediately. -/
theorem debounce_asymmetry_wit :
    Cmd.press "J" ∉ writes (keyStep 1030 [⟨180, 160, 100⟩]
      ⟨some "J", 1000, some (179, 161)⟩).2 ∧
    writes (keyStep 1030 [] ⟨some "J", 1000, some (179, 161)⟩).2 = [Cmd.release "J"] := by
  have h1 := debounce_asymmetry 1030 [⟨180, 160, 100⟩]
    ⟨some "J", 1000, some (179, 161)⟩ "J" "J"
  have h2 := debounce_asymmetry 1030 [] ⟨some "J", 1000, some (179, 161)⟩ "J" "J"
  exact ⟨h1.1 (by decide) (by decide), h2.2.2 (by decide) (by decide)⟩

/-! ### C3: release on no detection -/

/-- C3: a frame with an empty blob set while a key is held writes
exactly one release command for that key and resets the active key to
`None`, in both variants; the empty set follows the normal release
path of the total step functions rather than raising any error. -/
theorem release_on_no_detection (now : Int) (s : KeyState) (ps : PianoState)
    (K Kp : String) :
    (s.last_pressed_key = some K →
      writes (keyStep now [] s).2 = [Cmd.release K] ∧
      (keyStep now [] s).1.last_pressed_key = none) ∧
    (ps.last_pressed_key = some Kp →
      writes (pianoStep [] ps).2 = [Cmd.release Kp] ∧
      (pianoStep [] ps).1.last_pressed_key = none) := by
  constructor
  · intro hp
    have hc : keyCandidate ([] : List Blob) = none := rfl
    constructor
    · rw [keyStep_writes, gatedCand_of_none now [] s hc, hp, if_pos (by simp)]
      simp
    · rw [keyStep_eq, gatedCand_of_none now [] s hc, if_pos (by rw [hp]; simp)]
  · intro hp
    have hc : pianoCandidate ([] : List Blob) = none := rfl
    constructor
    · rw [pianoStep_writes, hc, hp, if_pos (by simp)]
      simp
    · unfold pianoStep
      rw [hc, hp, if_pos (by simp)]

/-- Witness for C3: at time 2000, with `"J"` held in the keyboard
variant and `"C4"` held in the piano variant, an empty frame releases
the held key and clears the active key in both. -/
theorem release_on_no_detection_wit :
    (writes (keyStep 2000 [] ⟨some "J", 1000, some (179, 161)⟩).2 = [Cmd.release "J"] ∧
      (keyStep 2000 [] ⟨some "J", 1000, some (179, 161)⟩).1.last_pressed_key = none) ∧
    (writes (pianoStep [] ⟨some "C4"⟩).2 = [Cmd.release "C4"] ∧
      (pianoStep [] ⟨some "C4"⟩).1.last_pressed_key = none) := by
  have h := release_on_no_detection 2000 ⟨some "J", 1000, some (179, 161)⟩
    ⟨some "C4"⟩ "J" "C4"
  exact ⟨h.1 (by decide), h.2 (by decide)⟩

lemma emission_shape (p c : Option String) :
    ((match p with | some K => [Cmd.release K] | none => []) ++
      (match c with | some k => [Cmd.press k] | none => [])).countP
        (fun x => isPressCmd x) ≤ 1 ∧
    ((match p with | some K => [Cmd.release K] | none => []) ++
      (match c with | some k => [Cmd.press k] | none => [])).countP
        (fun x => isReleaseCmd x) ≤ 1 ∧
    ∀ kp kr,
      Cmd.press kp ∈ (match p with | some K => [Cmd.release K] | none => []) ++
        (match c with | some k => [Cmd.press k] | none => []) →
      Cmd.release kr ∈ (match p with | some K => [Cmd.release K] | none => []) ++
        (match c with | some k => [Cmd.press k] | none => []) →
      (match p with | some K => [Cmd.release K] | none => []) ++
        (match c with | some k => [Cmd.press k] | none => []) =
        [Cmd.release kr, Cmd.press kp] := by
  cases p <;> cases c <;>
    simp [List.countP_cons, List.countP_nil, isPressCmd, isReleaseCmd]

/-! ### C4: per-frame emission bound and order -/

/-- C4: in every frame, each variant writes at most one press and at
most one release command, and whenever a frame writes both, the trace
is exactly the release followed by the press. -/
theorem per_frame_emission_bound (now : Int) (blobs : List Blob)
    (s : KeyState) (ps : PianoState) :
    ((writes (keyStep now blobs s).2).countP (fun x => isPressCmd x) ≤ 1 ∧
     (writes (keyStep now blobs s).2).countP (fun x => isReleaseCmd x) ≤ 1 ∧
     ∀ kp kr, Cmd.press kp ∈ writes (keyStep now blobs s).2 →
       Cmd.release kr ∈ writes (keyStep now blobs s).2 →
       writes (keyStep now blobs s).2 = [Cmd.release kr, Cmd.press kp]) ∧
    ((writes (pianoStep blobs ps).2).countP (fun x => isPressCmd x) ≤ 1 ∧
     (writes (pianoStep blobs ps).2).countP (fun x => isReleaseCmd x) ≤ 1 ∧
     ∀ kp kr, Cmd.press kp ∈ writes (pianoStep blobs ps).2 →
       Cmd.release kr ∈ writes (pianoStep blobs ps).2 →
       writes (pianoStep blobs ps).2 = [Cmd.release kr, Cmd.press kp]) := by
  constructor
  · rw [keyStep_writes]
    split
    · exact emission_shape _ _
    · simp
  · rw [pianoStep_writes]
    split
    · exact emission_shape _ _
    · simp

/-- Witness for C4: the frame at time 1000 that moves the keyboard
variant from held `"H"` to `"J"` writes exactly the release of `"H"`
followed by the press of `"J"`. -/
theorem per_frame_emission_bound_wit :
    writes (keyStep 1000 [⟨180, 160, 100⟩] ⟨some "H", 0, some (143, 150)⟩).2 =
      [Cmd.release "H", Cmd.press "J"] := by
  have h := per_frame_emission_bound 1000 [⟨180, 160, 100⟩]
    ⟨some "H", 0, some (143, 150)⟩ ⟨none⟩
  exact h.1.2.2 "J" "H" (by decide) (by decide)

/-! ### C1: idempotence of steady hold (corrected) -/

/-- C1 counterexample: in `key.py`, a blob sitting in the `"J"` zone
for five consecutive frames after an idle start does not produce a
single press: the second frame falls inside `DEBOUNCE_TIME` of the
transition, re-enters the state machine (both candidate and held key
are non-`None`), is forced to `None` by the gate and therefore writes
`U_J` — the run writes `D_J` then `U_J`, although each frame's
candidate equals the key made active by the first frame. -/
theorem steady_hold_cex :
    writes (keyRun [(1000, [⟨180, 160, 100⟩]), (1030, [⟨180, 160, 100⟩]),
        (1060, [⟨180, 160, 100⟩]), (1090, [⟨180, 160, 100⟩]),
        (1120, [⟨180, 160, 100⟩])] ⟨none, 0, none⟩).2 =
      [Cmd.press "J", Cmd.release "J"] ∧
    keyCandidate [⟨180, 160, 100⟩] =
      (keyStep 1000 [⟨180, 160, 100⟩] ⟨none, 0, none⟩).1.last_pressed_key := by
  exact ⟨by decide, by decide⟩

/-- C1 (amended): a frame whose candidate equals the active key emits
nothing in the piano variant, unconditionally; in the keyboard variant
it emits nothing only when the active key is `None` or at least
`DEBOUNCE_TIME` has elapsed since the last transition, while a
steady-hold frame within `DEBOUNCE_TIME` of the transition writes the
release of the held key and deactivates it. -/
theorem steady_hold_amended (now : Int) (blobs : List Blob) (s : KeyState)
    (ps : PianoState) (K : String) :
    (pianoCandidate blobs = ps.last_pressed_key → pianoStep blobs ps = (ps, [])) ∧
    (keyCandidate blobs = s.last_pressed_key →
      ((s.last_pressed_key = some K → now - s.last_key_time < DEBOUNCE_TIME →
         writes (keyStep now blobs s).2 = [Cmd.release K] ∧
         (keyStep now blobs s).1.last_pressed_key = none) ∧
       ((s.last_pressed_key = none ∨ DEBOUNCE_TIME ≤ now - s.last_key_time) →
         (keyStep now blobs s).2 = [] ∧
         (keyStep now blobs s).1.last_pressed_key = s.last_pressed_key))) := by
  constructor
  · intro h
    unfold pianoStep
    rw [if_neg (by simp [h])]
  · intro hcand
    constructor
    · intro hp hlt
      constructor
      · rw [keyStep_writes, gatedCand_of_lt now blobs s hlt, hp,
          if_pos (by simp)]
        simp
      · rw [keyStep_eq, gatedCand_of_lt now blobs s hlt,
          if_pos (by rw [hp]; simp)]
    · intro hdisj
      have hg : gatedCand now blobs s = s.last_pressed_key := by
        rcases hdisj with hp | hge
        · rw [gatedCand_of_none now blobs s (hcand.trans hp), hp]
        · rw [gatedCand_of_ge now blobs s hge, hcand]
      rw [keyStep_eq, if_neg (by simp [hg])]
      exact ⟨rfl, updateCoords_pressed blobs (frameCenter blobs) s⟩

/-- Witness for C1 (amended): with the blob steady in the `"J"` zone,
the piano variant (idle, candidate `None`) emits nothing; the keyboard
variant releases `"J"` at time 1030 (30 ms after the transition) and
emits nothing at time 1300 (300 ms after it). -/
theorem steady_hold_amended_wit :
    pianoStep [⟨180, 160, 100⟩] ⟨none⟩ = (⟨none⟩, []) ∧
    (writes (keyStep 1030 [⟨180, 160, 100⟩] ⟨some "J", 1000, some (179, 161)⟩).2
        = [Cmd.release "J"] ∧
      (keyStep 1030 [⟨180, 160, 100⟩]
        ⟨some "J", 1000, some (179, 161)⟩).1.last_pressed_key = none) ∧
    ((keyStep 1300 [⟨180, 160, 100⟩] ⟨some "J", 1000, some (179, 161)⟩).2 = [] ∧
      (keyStep 1300 [⟨180, 160, 100⟩]
        ⟨some "J", 1000, some (179, 161)⟩).1.last_pressed_key = some "J") := by
  have h1 := steady_hold_amended 1030 [⟨180, 160, 100⟩]
    ⟨some "J", 1000, some (179, 161)⟩ ⟨none⟩ "J"
  have h2 := steady_hold_amended 1300 [⟨180, 160, 100⟩]
    ⟨some "J", 1000, some (179, 161)⟩ ⟨none⟩ "J"
  refine ⟨h1.1 (by decide), (h1.2 (by decide)).1 (by decide) (by decide), ?_⟩
  have h3 := (h2.2 (by decide)).2 (Or.inr (by decide))
  exact ⟨h3.1, by rw [h3.2]⟩

/-! ### C8: state committed before write (corrected) -/

/-- The claim's ordering discipline on a frame trace: every
`setActiveKey` commit comes before every `uartWrite`. -/
def commitBeforeWrites (tr : List FrameEv) : Prop :=
  ∀ (i j : Nat) (c : Cmd) (k : Option String),
    tr[i]? = some (FrameEv.uartWrite c) →
    tr[j]? = some (FrameEv.setActiveKey k) → j < i

/-- C8 counterexample: in the frame at time 1000 in which the keyboard
variant releases the held `"J"` (empty blob set), the UART write of
`U_J` happens at trace position 0 and the `last_pressed_key` commit at
position 1 — the write precedes the state update, so the state is not
committed before the bytes are handed to the sink. -/
theorem state_commit_cex :
    ¬ commitBeforeWrites (keyStep 1000 [] ⟨some "J", 0, none⟩).2 := by
  intro h
  unfold commitBeforeWrites at h
  have := h 0 1 (Cmd.release "J") none (by decide) (by decide)
  omega

/-- C8 (amended): in every frame in which either variant emits
anything, the trace consists of the UART writes (derived from the
pre-frame held key and the gated candidate) followed by a single
trailing `last_pressed_key` commit of the new candidate — the state is
committed after the writes, so at the moment of a write the old state
is still in place. -/
theorem state_commit_amended (now : Int) (blobs : List Blob)
    (s : KeyState) (ps : PianoState) :
    ((keyStep now blobs s).2 ≠ [] →
      ∃ c, (keyStep now blobs s).2 =
          relEvs s.last_pressed_key ++ pressEvs c ++ [FrameEv.setActiveKey c] ∧
        c = (keyStep now blobs s).1.last_pressed_key) ∧
    ((pianoStep blobs ps).2 ≠ [] →
      ∃ c, (pianoStep blobs ps).2 =
          relEvs ps.last_pressed_key ++ pressEvs c ++ [FrameEv.setActiveKey c] ∧
        c = (pianoStep blobs ps).1.last_pressed_key) := by
  constructor
  · intro hne
    rw [keyStep_eq] at hne ⊢
    by_cases h : gatedCand now blobs s ≠ s.last_pressed_key
    · rw [if_pos h] at hne ⊢
      exact ⟨gatedCand now blobs s, rfl, rfl⟩
    · rw [if_neg h] at hne
      exact absurd rfl hne
  · intro hne
    unfold pianoStep at hne ⊢
    by_cases h : pianoCandidate blobs ≠ ps.last_pressed_key
    · rw [if_pos h] at hne ⊢
      exact ⟨pianoCandidate blobs, rfl, rfl⟩
    · rw [if_neg h] at hne
      exact absurd rfl hne

/-- Witness for C8 (amended) at the release frames of both variants. -/
theorem state_commit_amended_wit :
    (∃ c, (keyStep 1000 [] ⟨some "J", 0, none⟩).2 =
        relEvs (some "J") ++ pressEvs c ++ [FrameEv.setActiveKey c] ∧
      c = (keyStep 1000 [] ⟨some "J", 0, none⟩).1.last_pressed_key) ∧
    (∃ c, (pianoStep [] ⟨some "C4"⟩).2 =
        relEvs (some "C4") ++ pressEvs c ++ [FrameEv.setActiveKey c] ∧
      c = (pianoStep [] ⟨some "C4"⟩).1.last_pressed_key) := by
  have h := state_commit_amended 1000 [] ⟨some "J", 0, none⟩ ⟨some "C4"⟩
  exact ⟨h.1 (by decide), h.2 (by decide)⟩

/-! ### C9: lastKnownCoordinate update/clear rule (corrected) -/

lemma keyStep_coords (now : Int) (blobs : List Blob) (s : KeyState) :
    (keyStep now blobs s).1.last_center_coords =
      (updateCoords blobs (frameCenter blobs) s).last_center_coords := by
  rw [keyStep_eq]
  split <;> rfl

/-- C9 counterexample: in a frame whose blob sits at `(300, 10)` —
inside no zone of `keymap_data` — the blob set is non-empty, yet
`last_center_coords` is neither updated to a current zone anchor nor
cleared: it keeps the stale anchor `(179, 161)` of an earlier frame,
so it is not the case that every blob-present frame updates the
coordinate to the resolved zone's anchor. -/
theorem coord_update_cex :
    ([⟨300, 10, 100⟩] : List Blob) ≠ [] ∧
    (∀ z ∈ keymap_data, containsPt z.rect 300 10 = false) ∧
    frameCenter [⟨300, 10, 100⟩] = none ∧
    (keyStep 5000 [⟨300, 10, 100⟩]
      ⟨some "J", 1000, some (179, 161)⟩).1.last_center_coords = some (179, 161) := by
  exact ⟨by decide, by decide, by decide, by decide⟩

/-- C9 (amended): a frame whose blob resolves to a zone stores that
zone's center in `last_center_coords`; a frame with no blob clears it
to `None` (even without any transition); a frame whose blob resolves
to no zone leaves it unchanged; and the coordinate update touches no
other state field. -/
theorem coord_update_amended (now : Int) (blobs : List Blob) (s : KeyState)
    (c : Int × Int) :
    (frameCenter blobs = some c →
      (keyStep now blobs s).1.last_center_coords = some c) ∧
    (blobs = [] → (keyStep now blobs s).1.last_center_coords = none) ∧
    (blobs ≠ [] → frameCenter blobs = none →
      (keyStep now blobs s).1.last_center_coords = s.last_center_coords) ∧
    ((updateCoords blobs (frameCenter blobs) s).last_pressed_key =
        s.last_pressed_key ∧
      (updateCoords blobs (frameCenter blobs) s).last_key_time =
        s.last_key_time) := by
  refine ⟨?_, ?_, ?_, updateCoords_pressed blobs (frameCenter blobs) s,
    updateCoords_time blobs (frameCenter blobs) s⟩
  · intro h
    have hb : blobs ≠ [] := by
      intro hb
      rw [hb] at h
      exact Option.noConfusion h
    rw [keyStep_coords]
    unfold updateCoords
    rw [if_pos ⟨hb, by rw [h]; rfl⟩]
    simpa using h
  · intro hb
    rw [keyStep_coords]
    unfold updateCoords
    rw [if_neg (by simp [hb]), if_pos hb]
  · intro hb hc
    rw [keyStep_coords]
    unfold updateCoords
    rw [if_neg (by simp [hc]), if_neg hb]

/-- Witness for C9 (amended): a resolving frame stores the `"J"` zone
center, an empty frame clears the coordinate, and an unmapped-blob
frame leaves the stored anchor untouched. -/
theorem coord_update_amended_wit :
    (keyStep 1000 [⟨180, 160, 100⟩] ⟨none, 0, none⟩).1.last_center_coords
      = some (179, 161) ∧
    (keyStep 1000 [] ⟨some "J", 500, some (179, 161)⟩).1.last_center_coords = none ∧
    (keyStep 1000 [⟨300, 10, 100⟩]
      ⟨none, 0, some (179, 161)⟩).1.last_center_coords = some (179, 161) := by
  have h1 := coord_update_amended 1000 [⟨180, 160, 100⟩] ⟨none, 0, none⟩ (179, 161)
  have h2 := coord_update_amended 1000 [] ⟨some "J", 500, some (179, 161)⟩ (179, 161)
  have h3 := coord_update_amended 1000 [⟨300, 10, 100⟩]
    ⟨none, 0, some (179, 161)⟩ (179, 161)
  exact ⟨h1.1 (by decide), h2.2.1 rfl, h3.2.2.1 (by decide) (by decide)⟩

/-! ### C10: variant equivalence -/

/-- The gate of the generic pipeline. -/
def genGated (table : List KeyInfo) (debounce now : Int) (blobs : List Blob)
    (s : KeyState) : Option String :=
  if (genCand table blobs).isSome ∧ now - s.last_key_time < debounce then none
  else genCand table blobs

lemma specGenericStep_eq (table : List KeyInfo) (debounce now : Int)
    (blobs : List Blob) (s : KeyState) :
    specGenericStep table debounce now blobs s =
      if genGated table debounce now blobs s ≠ s.last_pressed_key then
        ({ updateCoords blobs (genCenter table blobs) s with
             last_pressed_key := genGated table debounce now blobs s,
             last_key_time := now },
         relEvs s.last_pressed_key ++ pressEvs (genGated table debounce now blobs s) ++
           [FrameEv.setActiveKey (genGated table debounce now blobs s)])
      else (updateCoords blobs (genCenter table blobs) s, []) := by
  unfold specGenericStep genGated
  simp only [updateCoords_pressed, updateCoords_time]
  by_cases hout : genCand table blobs ≠ s.last_pressed_key ∨
      ((genCand table blobs).isSome ∧ s.last_pressed_key.isSome)
  · simp only [hout, if_pos]
  · have hcp : genCand table blobs = s.last_pressed_key := by
      by_contra h
      exact hout (Or.inl h)
    have hnone : genCand table blobs = none := by
      cases hc : genCand table blobs with
      | none => rfl
      | some k =>
        exfalso
        apply hout
        refine Or.inr ⟨by simp [hc], ?_⟩
        rw [← hcp, hc]
        rfl
    rw [if_neg hout]
    rw [if_neg (by simp [hnone, ← hcp])]

lemma resolve_eq_noNull (table : List KeyInfo)
    (h : ∀ ki ∈ table, ki.key ≠ "NULL") (cx cy : Int) :
    (keyResolve table cx cy).1 = pianoResolve table cx cy := by
  induction table with
  | nil => rfl
  | cons ki rest ih =>
    by_cases hc : containsPt ki.rect cx cy
    · simp [keyResolve, pianoResolve, hc, h ki (List.mem_cons_self _ _)]
    · simp only [keyResolve, pianoResolve, hc, Bool.false_eq_true, if_false]
      exact ih fun z hz => h z (List.mem_cons_of_mem _ hz)

lemma genCand_piano (blobs : List Blob) :
    genCand pianokey_map_data blobs = pianoCandidate blobs := by
  unfold genCand pianoCandidate
  cases selectBlob blobs with
  | none => rfl
  | some b => exact resolve_eq_noNull pianokey_map_data (by decide) b.cx b.cy

lemma gen_piano_step (now : Int) (blobs : List Blob) (s : KeyState)
    (h : s.last_key_time ≤ now) :
    (specGenericStep pianokey_map_data 0 now blobs s).2 =
      (pianoStep blobs ⟨s.last_pressed_key⟩).2 ∧
    (specGenericStep pianokey_map_data 0 now blobs s).1.last_pressed_key =
      (pianoStep blobs ⟨s.last_pressed_key⟩).1.last_pressed_key ∧
    (specGenericStep pianokey_map_data 0 now blobs s).1.last_key_time ≤ now := by
  have hg : genGated pianokey_map_data 0 now blobs s = pianoCandidate blobs := by
    unfold genGated
    rw [if_neg, genCand_piano]
    rintro ⟨-, hlt⟩
    omega
  rw [specGenericStep_eq]
  unfold pianoStep
  by_cases hne : pianoCandidate blobs ≠ s.last_pressed_key
  · rw [if_pos (by rw [hg]; exact hne), if_pos hne, hg]
    exact ⟨rfl, rfl, le_refl now⟩
  · rw [if_neg (by rw [hg]; exact hne), if_neg hne]
    refine ⟨rfl, updateCoords_pressed blobs (genCenter pianokey_map_data blobs) s, ?_⟩
    rw [updateCoords_time]
    exact h

lemma timesOk_mono (t t' : Int) (frames : List (Int × List Blob))
    (hle : t' ≤ t) (h : timesOk t frames) : timesOk t' frames := by
  cases frames with
  | nil => trivial
  | cons f rest =>
    obtain ⟨now, bl⟩ := f
    exact ⟨le_trans hle h.1, h.2⟩

lemma keyRun_cons (now : Int) (blobs : List Blob)
    (rest : List (Int × List Blob)) (s : KeyState) :
    keyRun ((now, blobs) :: rest) s =
      ((keyRun rest (keyStep now blobs s).1).1,
       (keyStep now blobs s).2 ++ (keyRun rest (keyStep now blobs s).1).2) := rfl

lemma pianoRun_cons (blobs : List Blob) (rest : List (List Blob)) (s : PianoState) :
    pianoRun (blobs :: rest) s =
      ((pianoRun rest (pianoStep blobs s).1).1,
       (pianoStep blobs s).2 ++ (pianoRun rest (pianoStep blobs s).1).2) := rfl

lemma specGenericRun_cons (table : List KeyInfo) (d now : Int) (blobs : List Blob)
    (rest : List (Int × List Blob)) (s : KeyState) :
    specGenericRun table d ((now, blobs) :: rest) s =
      ((specGenericRun table d rest (specGenericStep table d now blobs s).1).1,
       (specGenericStep table d now blobs s).2 ++
         (specGenericRun table d rest (specGenericStep table d now blobs s).1).2) := rfl

lemma gen_piano_run (frames : List (Int × List Blob)) (s : KeyState)
    (h : timesOk s.last_key_time frames) :
    (specGenericRun pianokey_map_data 0 frames s).2 =
      (pianoRun (frames.map Prod.snd) ⟨s.last_pressed_key⟩).2 ∧
    (specGenericRun pianokey_map_data 0 frames s).1.last_pressed_key =
      (pianoRun (frames.map Prod.snd) ⟨s.last_pressed_key⟩).1.last_pressed_key := by
  induction frames generalizing s with
  | nil => exact ⟨rfl, rfl⟩
  | cons f rest ih =>
    obtain ⟨now, blobs⟩ := f
    obtain ⟨h1, h2⟩ := h
    have hstep := gen_piano_step now blobs s h1
    have hps : (pianoStep blobs ⟨s.last_pressed_key⟩).1 =
        ⟨(specGenericStep pianokey_map_data 0 now blobs s).1.last_pressed_key⟩ := by
      rw [hstep.2.1]
    have ih' := ih (specGenericStep pianokey_map_data 0 now blobs s).1
      (timesOk_mono now _ rest hstep.2.2 h2)
    rw [List.map_cons, specGenericRun_cons, pianoRun_cons, hps]
    exact ⟨by rw [hstep.1, ih'.1], by rw [ih'.2]⟩

/-- C10: the two scripts are instances of one generic per-frame
pipeline parameterized only by the zone table and the debounce
constant: every run of `key.py` equals the generic pipeline's run at
`keymap_data` and `DEBOUNCE_TIME`, and for every chronologically
ordered frame sequence the generic pipeline at `pianokey_map_data`
with a zero debounce interval produces exactly the event trace and
active key of `piano.py`. -/
theorem variant_equivalence (frames : List (Int × List Blob)) (s : KeyState) :
    keyRun frames s = specGenericRun keymap_data DEBOUNCE_TIME frames s ∧
    (timesOk s.last_key_time frames →
      (specGenericRun pianokey_map_data 0 frames s).2 =
        (pianoRun (frames.map Prod.snd) ⟨s.last_pressed_key⟩).2 ∧
      (specGenericRun pianokey_map_data 0 frames s).1.last_pressed_key =
        (pianoRun (frames.map Prod.snd) ⟨s.last_pressed_key⟩).1.last_pressed_key) := by
  constructor
  · have hk : ∀ (now : Int) (blobs : List Blob) (st : KeyState),
        keyStep now blobs st = specGenericStep keymap_data DEBOUNCE_TIME now blobs st :=
      fun _ _ _ => rfl
    induction frames generalizing s with
    | nil => rfl
    | cons f rest ih =>
      obtain ⟨now, blobs⟩ := f
      rw [keyRun_cons, specGenericRun_cons, ← hk, ih]
  · exact fun h => gen_piano_run frames s h

/-- Witness for C10 on two-frame runs: a press-then-release run of the
keyboard variant coincides with the generic pipeline, and the generic
pipeline at the piano table with zero debounce replays a `"C4"`
press-then-release of the piano variant. -/
theorem variant_equivalence_wit :
    keyRun [(1000, [⟨180, 160, 100⟩]), (1030, [])] ⟨none, 0, none⟩ =
      specGenericRun keymap_data DEBOUNCE_TIME
        [(1000, [⟨180, 160, 100⟩]), (1030, [])] ⟨none, 0, none⟩ ∧
    ((specGenericRun pianokey_map_data 0
        [(1000, [⟨50, 190, 100⟩]), (1030, [])] ⟨none, 0, none⟩).2 =
      (pianoRun [[⟨50, 190, 100⟩], []] ⟨none⟩).2 ∧
     (specGenericRun pianokey_map_data 0
        [(1000, [⟨50, 190, 100⟩]), (1030, [])] ⟨none, 0, none⟩).1.last_pressed_key =
      (pianoRun [[⟨50, 190, 100⟩], []] ⟨none⟩).1.last_pressed_key) := by
  have h1 := variant_equivalence [(1000, [⟨180, 160, 100⟩]), (1030, [])] ⟨none, 0, none⟩
  have h2 := variant_equivalence [(1000, [⟨50, 190, 100⟩]), (1030, [])] ⟨none, 0, none⟩
  exact ⟨h1.1, h2.2 ⟨by norm_num, by norm_num, trivial⟩⟩
